import Mathlib

/-
  Verification of the filled-path tessellation core (filled_path.cpp).

  The definitions below are a shallow embedding of the C++ source:
  machine `int` values become `Int` with C++ truncated division and
  remainder (`Int.tdiv` / `Int.tmod`), `float` coordinates become `ℚ`
  (exact arithmetic; the embedded predicates are about the arithmetic
  structure of the code, not about rounding), containers become lists,
  and `std::map` iteration becomes iteration over a key-sorted
  association list.
-/

namespace FilledPathSpec

/-- `fastuidraw::t_abs` on `int`. -/
def t_abs (w : Int) : Int := if w < 0 then -w else w

/-! ### The four standard fill-rule predicates (filled_path.cpp lines 174-196) -/

/-- `fcn_non_zero_fill_rule(w) { return w != 0; }` -/
def fcn_non_zero_fill_rule (w : Int) : Bool := w != 0

/-- `fcn_complelemt_non_zero_fill_rule(w) { return w == 0; }` (sic, the
source misspells "complement"). -/
def fcn_complelemt_non_zero_fill_rule (w : Int) : Bool := w == 0

/-- `fcn_odd_even_fill_rule(w) { return t_abs(w) % 2 == 1; }` with C++
truncated remainder. -/
def fcn_odd_even_fill_rule (w : Int) : Bool := Int.tmod (t_abs w) 2 == 1

/-- `fcn_complement_odd_even_fill_rule(w) { return w % 2 == 0; }` with C++
truncated remainder (so `(-3) % 2 == -1`, not `1`). -/
def fcn_complement_odd_even_fill_rule (w : Int) : Bool := Int.tmod w 2 == 0

/-- Claim C10: for every integer `w` the standard complement fill-rule
predicates are the exact boolean negations of their base predicates:
`fcn_complement_odd_even_fill_rule w = !fcn_odd_even_fill_rule w` (the
odd-even test uses `|w|` while the complement uses C++ truncated `%`,
and the two agree on all integers including negative odd ones), and
`fcn_complelemt_non_zero_fill_rule w = !fcn_non_zero_fill_rule w`. -/
theorem complement_fill_rules_are_negations (w : Int) :
    fcn_complement_odd_even_fill_rule w = !fcn_odd_even_fill_rule w ∧
    fcn_complelemt_non_zero_fill_rule w = !fcn_non_zero_fill_rule w := by
  constructor
  · unfold fcn_complement_odd_even_fill_rule fcn_odd_even_fill_rule t_abs
    cases w with
    | ofNat m =>
      rw [if_neg (by exact Int.not_lt.mpr (Int.ofNat_nonneg m))]
      show (Int.ofNat (m % 2) == 0) = !(Int.ofNat (m % 2) == 1)
      rcases Nat.mod_two_eq_zero_or_one m with h | h <;> simp [h]
    | negSucc m =>
      rw [if_pos (Int.negSucc_lt_zero m)]
      show (-Int.ofNat ((m+1) % 2) == 0) = !(Int.tmod (-Int.negSucc m) 2 == 1)
      have hneg : -Int.negSucc m = Int.ofNat (m+1) := by rfl
      rw [hneg]
      show (-Int.ofNat ((m+1) % 2) == 0) = !(Int.ofNat ((m+1) % 2) == 1)
      rcases Nat.mod_two_eq_zero_or_one (m+1) with h | h <;> simp [h]
  · unfold fcn_complelemt_non_zero_fill_rule fcn_non_zero_fill_rule
    simp [bne]

/-! ### Chunk IDs from winding numbers (FilledPath::Subset::chunk_from_winding_number) -/

/-- Modelled from the spec: the value of
`fastuidraw::PainterEnums::complement_nonzero_fill_rule`.  The enumeration
`fill_rule_t` is declared in a header that is not part of the sources here;
the spec fixes the chunk-ID encoding as "chunk 0..3 reserved for the four
standard fill rules (nonzero, odd-even, complement-nonzero,
complement-odd-even)", giving this member the value 2. -/
def complement_nonzero_fill_rule : Nat := 2

/-- Modelled from the spec: the value of
`fastuidraw::PainterEnums::fill_rule_data_count`, the number of reserved
standard-fill-rule chunks, which the spec fixes at 4 ("chunk
`4 + 2·(|w|−1) + (w<0 ? 1 : 0)` for the isolated winding number"). -/
def fill_rule_data_count : Nat := 4

/-- `FilledPath::Subset::chunk_from_winding_number` (filled_path.cpp lines
2906-2924): winding 0 reuses the complement-nonzero chunk; otherwise
`value = abs(w)`, `sg = (w < 0) ? 1 : 0`, result
`fill_rule_data_count + sg + 2 * (value - 1)`. -/
def chunk_from_winding_number (winding_number : Int) : Nat :=
  if winding_number = 0 then
    complement_nonzero_fill_rule
  else
    fill_rule_data_count + (if winding_number < 0 then 1 else 0)
      + 2 * (winding_number.natAbs - 1)

/-- Claim C6: for `w ≠ 0`, `chunk_from_winding_number w` equals
`4 + 2·(|w|−1) + (1 if w < 0 else 0)`; `chunk_from_winding_number 0`
equals 2, the complement-nonzero chunk; the mapping is injective on
non-zero windings, and never collides with the reserved chunks 0..3. -/
theorem chunk_from_winding_number_spec :
    chunk_from_winding_number 0 = 2 ∧
    complement_nonzero_fill_rule = 2 ∧
    (∀ w : Int, w ≠ 0 →
      chunk_from_winding_number w
        = 4 + 2 * (w.natAbs - 1) + (if w < 0 then 1 else 0)) ∧
    (∀ w1 w2 : Int, w1 ≠ 0 → w2 ≠ 0 →
      chunk_from_winding_number w1 = chunk_from_winding_number w2 → w1 = w2) ∧
    (∀ w : Int, w ≠ 0 → 4 ≤ chunk_from_winding_number w) := by
  refine ⟨rfl, rfl, ?_, ?_, ?_⟩
  · intro w hw
    unfold chunk_from_winding_number fill_rule_data_count
    rw [if_neg hw]
    omega
  · intro w1 w2 h1 h2
    unfold chunk_from_winding_number fill_rule_data_count
    rw [if_neg h1, if_neg h2]
    intro heq
    have ha1 : 1 ≤ w1.natAbs := by
      have := Int.natAbs_pos.mpr h1
      omega
    have ha2 : 1 ≤ w2.natAbs := by
      have := Int.natAbs_pos.mpr h2
      omega
    by_cases hn1 : w1 < 0 <;> by_cases hn2 : w2 < 0 <;>
      simp only [if_pos, if_neg, hn1, hn2, if_true, if_false] at heq <;> omega
  · intro w hw
    unfold chunk_from_winding_number fill_rule_data_count
    rw [if_neg hw]
    omega

/-- Witness for claim C6, at the concrete windings `-3` and `2`. -/
theorem chunk_from_winding_number_spec_witness :
    chunk_from_winding_number (-3)
        = 4 + 2 * (Int.natAbs (-3) - 1) + (if (-3 : Int) < 0 then 1 else 0) ∧
    (-3 : Int) = (-3 : Int) ∧
    4 ≤ chunk_from_winding_number 2 :=
  ⟨chunk_from_winding_number_spec.2.2.1 (-3) (by decide),
   chunk_from_winding_number_spec.2.2.2.1 (-3) (-3) (by decide) (by decide) rfl,
   chunk_from_winding_number_spec.2.2.2.2 2 (by decide)⟩

/-! ### builder::fill_indices (filled_path.cpp lines 2030-2108)

The `winding_index_hoard` is a `std::map<int, per_winding_data>`; we embed
it as an association list of `(winding number, index list)` pairs in map
iteration order.  `fill_indices` makes two passes over the hoard: the
first counts the indices in each of the three classes (odd winding,
even non-zero winding, zero winding), the second writes every entry's
index list at the running cursor of its class, the cursors starting at
`0`, `num_odd` and `num_odd + num_even_non_zero`.  Writing consecutive
blocks at the three cursors of a preallocated array is embedded as
growing three region lists that are concatenated at the end. -/

/-- `is_even(v) { return (v % 2) == 0; }` with C++ truncated remainder. -/
def is_even (v : Int) : Bool := Int.tmod v 2 == 0

/-- First pass of `builder::fill_indices`: count `(num_odd,
num_even_non_zero, num_zero)` over the hoard. -/
def fill_indices_counts (hoard : List (Int × List Nat)) : Nat × Nat × Nat :=
  hoard.foldl
    (fun acc p =>
      if p.1 = 0 then (acc.1, acc.2.1, acc.2.2 + p.2.length)
      else if is_even p.1 then (acc.1, acc.2.1 + p.2.length, acc.2.2)
      else (acc.1 + p.2.length, acc.2.1, acc.2.2))
    (0, 0, 0)

/-- Second pass of `builder::fill_indices`: each entry's indices are
appended at the cursor of its class (odd region, even-non-zero region,
zero region). -/
def fill_indices_regions (hoard : List (Int × List Nat)) :
    List Nat × List Nat × List Nat :=
  hoard.foldl
    (fun acc p =>
      if p.1 = 0 then (acc.1, acc.2.1, acc.2.2 ++ p.2)
      else if is_even p.1 then (acc.1, acc.2.1 ++ p.2, acc.2.2)
      else (acc.1 ++ p.2, acc.2.1, acc.2.2))
    ([], [], [])

/-- Result of `builder::fill_indices`: the single packed index array and
the two returned offsets. -/
structure FillIndicesResult where
  indices : List Nat
  even_non_zero_start : Nat
  zero_start : Nat
deriving Repr, DecidableEq

/-- `builder::fill_indices`: pack the three regions as odd, then even
non-zero, then zero, and return `even_non_zero_start = num_odd`,
`zero_start = current_odd + num_even_non_zero` (where the final value of
the cursor `current_odd` is `num_odd`). -/
def fill_indices (hoard : List (Int × List Nat)) : FillIndicesResult :=
  let counts := fill_indices_counts hoard
  let regions := fill_indices_regions hoard
  { indices := regions.1 ++ regions.2.1 ++ regions.2.2
  , even_non_zero_start := counts.1
  , zero_start := counts.1 + counts.2.1 }

/-- The indices of hoard entries whose winding number is odd, in map
iteration order. -/
def odd_region (hoard : List (Int × List Nat)) : List Nat :=
  (hoard.filter (fun p => !(p.1 == 0) && !(is_even p.1))).flatMap Prod.snd

/-- The indices of hoard entries whose winding number is even and
non-zero, in map iteration order. -/
def even_non_zero_region (hoard : List (Int × List Nat)) : List Nat :=
  (hoard.filter (fun p => !(p.1 == 0) && is_even p.1)).flatMap Prod.snd

/-- The indices of hoard entries whose winding number is zero. -/
def zero_region (hoard : List (Int × List Nat)) : List Nat :=
  (hoard.filter (fun p => p.1 == 0)).flatMap Prod.snd

lemma fill_indices_regions_go (hoard : List (Int × List Nat))
    (a b c : List Nat) :
    hoard.foldl
      (fun acc p =>
        if p.1 = 0 then (acc.1, acc.2.1, acc.2.2 ++ p.2)
        else if is_even p.1 then (acc.1, acc.2.1 ++ p.2, acc.2.2)
        else (acc.1 ++ p.2, acc.2.1, acc.2.2))
      (a, b, c)
    = (a ++ odd_region hoard, b ++ even_non_zero_region hoard,
       c ++ zero_region hoard) := by
  induction hoard generalizing a b c with
  | nil => simp [odd_region, even_non_zero_region, zero_region]
  | cons p rest ih =>
    simp only [List.foldl_cons]
    by_cases h0 : p.1 = 0
    · rw [if_pos h0, ih]
      simp [odd_region, even_non_zero_region, zero_region, List.filter_cons, h0]
    · by_cases he : is_even p.1
      · rw [if_neg h0, if_pos he, ih]
        simp [odd_region, even_non_zero_region, zero_region, List.filter_cons, h0, he]
      · rw [if_neg h0, if_neg he, ih]
        simp [odd_region, even_non_zero_region, zero_region, List.filter_cons, h0, he]

lemma fill_indices_regions_eq (hoard : List (Int × List Nat)) :
    fill_indices_regions hoard
      = (odd_region hoard, even_non_zero_region hoard, zero_region hoard) := by
  unfold fill_indices_regions
  rw [fill_indices_regions_go]
  simp

lemma fill_indices_counts_go (hoard : List (Int × List Nat)) (a b c : Nat) :
    hoard.foldl
      (fun acc p =>
        if p.1 = 0 then (acc.1, acc.2.1, acc.2.2 + p.2.length)
        else if is_even p.1 then (acc.1, acc.2.1 + p.2.length, acc.2.2)
        else (acc.1 + p.2.length, acc.2.1, acc.2.2))
      (a, b, c)
    = (a + (odd_region hoard).length, b + (even_non_zero_region hoard).length,
       c + (zero_region hoard).length) := by
  induction hoard generalizing a b c with
  | nil => simp [odd_region, even_non_zero_region, zero_region]
  | cons p rest ih =>
    simp only [List.foldl_cons]
    by_cases h0 : p.1 = 0
    · rw [if_pos h0, ih]
      simp [odd_region, even_non_zero_region, zero_region, List.filter_cons, h0] <;> omega
    · by_cases he : is_even p.1
      · rw [if_neg h0, if_pos he, ih]
        simp [odd_region, even_non_zero_region, zero_region, List.filter_cons, h0, he] <;> omega
      · rw [if_neg h0, if_neg he, ih]
        simp [odd_region, even_non_zero_region, zero_region, List.filter_cons, h0, he] <;> omega

lemma fill_indices_counts_eq (hoard : List (Int × List Nat)) :
    fill_indices_counts hoard
      = ((odd_region hoard).length, (even_non_zero_region hoard).length,
         (zero_region hoard).length) := by
  unfold fill_indices_counts
  rw [fill_indices_counts_go]
  simp

/-- Claim C1: `builder::fill_indices` lays out the single index array as
three contiguous regions — odd windings first, then even non-zero
windings, then zero windings — returns `even_non_zero_start` equal to the
number of odd-winding indices and `zero_start` equal to the number of odd
plus even-non-zero indices, and consequently the four standard fill rules
name contiguous slices of the array exactly as
`SubsetPrivate::make_ready_from_sub_path` takes them: nonzero =
`[0, zero_start)`, odd-even = `[0, even_non_zero_start)`,
complement-odd-even = `[even_non_zero_start, total)`, complement-nonzero
= `[zero_start, total)`. -/
theorem fill_indices_layout (hoard : List (Int × List Nat)) :
    (fill_indices hoard).indices
        = odd_region hoard ++ even_non_zero_region hoard ++ zero_region hoard ∧
    (fill_indices hoard).even_non_zero_start = (odd_region hoard).length ∧
    (fill_indices hoard).zero_start
        = (odd_region hoard).length + (even_non_zero_region hoard).length ∧
    (fill_indices hoard).indices.take (fill_indices hoard).zero_start
        = odd_region hoard ++ even_non_zero_region hoard ∧
    (fill_indices hoard).indices.take (fill_indices hoard).even_non_zero_start
        = odd_region hoard ∧
    (fill_indices hoard).indices.drop (fill_indices hoard).even_non_zero_start
        = even_non_zero_region hoard ++ zero_region hoard ∧
    (fill_indices hoard).indices.drop (fill_indices hoard).zero_start
        = zero_region hoard := by
  have hreg := fill_indices_regions_eq hoard
  have hcnt := fill_indices_counts_eq hoard
  unfold fill_indices
  rw [hreg, hcnt]
  dsimp only
  have hlen : (odd_region hoard).length + (even_non_zero_region hoard).length
      = (odd_region hoard ++ even_non_zero_region hoard).length :=
    (List.length_append _ _).symm
  refine ⟨rfl, rfl, rfl, ?_, ?_, ?_, ?_⟩
  · rw [hlen, List.take_left]
  · rw [List.append_assoc, List.take_left]
  · rw [List.append_assoc, List.drop_left]
  · rw [hlen, List.drop_left]

/-! ### SubPath contour points and the degenerate-boundary collapse
(filled_path.cpp lines 308-330, 1033-1070, 1285-1343) -/

/-- `SubContourPoint::on_boundary_t`. -/
inductive OnBoundary where
  | on_min_boundary
  | on_max_boundary
  | not_on_boundary
deriving DecidableEq, Repr

/-- `SubPath::SubContourPoint`: a 2D point (coordinates in `ℚ`), the
*starts-tessellated-edge* flag, and one boundary tag per axis.  The
corner-point code of the source is a field computed from the boundary
tags at construction; here it is the derived function
`corner_point_type`. -/
structure SubContourPoint where
  ptx : ℚ
  pty : ℚ
  m_start_tessellated_edge : Bool
  btx : OnBoundary
  bty : OnBoundary
deriving DecidableEq, Repr

/-- Coordinate access `pt()[i]`. -/
def SubContourPoint.coord (p : SubContourPoint) (i : Nat) : ℚ :=
  if i = 0 then p.ptx else p.pty

/-- Boundary-tag access `m_boundary_type[i]`. -/
def SubContourPoint.boundary_type (p : SubContourPoint) (i : Nat) : OnBoundary :=
  if i = 0 then p.btx else p.bty

/-- `SubContourPoint::is_corner_point`: on a boundary in both axes. -/
def SubContourPoint.is_corner_point (p : SubContourPoint) : Bool :=
  p.btx != OnBoundary.not_on_boundary && p.bty != OnBoundary.not_on_boundary

/-- `box_max_x_flag`. -/
def box_max_x_flag : Nat := 1

/-- `box_max_y_flag`. -/
def box_max_y_flag : Nat := 2

/-- The corner code stored in `m_corner_point_type`: the two max flags
or-ed together for a corner point, `4` otherwise (the default-constructed
value). -/
def SubContourPoint.corner_point_type (p : SubContourPoint) : Nat :=
  if p.is_corner_point then
    (if p.btx = OnBoundary.on_max_boundary then box_max_x_flag else 0)
      + (if p.bty = OnBoundary.on_max_boundary then box_max_y_flag else 0)
  else 4

/-- `box_next_neighbor` (filled_path.cpp lines 318-330): the successor in
the 4-cycle `mm → mM → MM → Mm → mm` of corner codes `0 → 2 → 3 → 1 → 0`. -/
def box_next_neighbor (v : Nat) : Nat :=
  match v with
  | 0 => 2
  | 1 => 0
  | 2 => 3
  | _ => 1

/-- The loop of `SubPath::post_process_sub_contour`: walk the contour
tracking the previous corner code, count forward (`next-neighbor`) and
backward (`previous-neighbor`) transitions, and fail (`none`) on the
first point that is not a corner or whose transition is neither. -/
def ppLoop : Nat → Int → Int → List SubContourPoint → Option (Int × Int)
  | _, f, b, [] => some (f, b)
  | prev, f, b, p :: rest =>
    if !p.is_corner_point then none
    else if p.corner_point_type = box_next_neighbor prev then
      ppLoop p.corner_point_type (f + 1) b rest
    else if prev = box_next_neighbor p.corner_point_type then
      ppLoop p.corner_point_type f (b + 1) rest
    else none

/-- `SubPath::post_process_sub_contour` (filled_path.cpp lines
1285-1343): returns the winding-start adjustment and the (possibly
cleared) contour. -/
def post_process_sub_contour (C : List SubContourPoint) :
    Int × List SubContourPoint :=
  match C.getLast? with
  | none => (0, C)
  | some last =>
    if !last.is_corner_point then (0, C)
    else
      match ppLoop last.corner_point_type 0 0 C with
      | none => (0, C)
      | some fb =>
        if Int.tmod (fb.2 - fb.1) 4 = 0 then (Int.tdiv (fb.2 - fb.1) 4, [])
        else (0, C)

/-- A step `(previous corner code, current corner code)` goes to the
next-neighbor corner in the 4-cycle. -/
def fwdStep (s : Nat × Nat) : Bool := s.2 == box_next_neighbor s.1

/-- A step goes to the previous-neighbor corner (tested only when it is
not a forward step, mirroring the `else if` of the source). -/
def bwdStep (s : Nat × Nat) : Bool :=
  !(s.2 == box_next_neighbor s.1) && s.1 == box_next_neighbor s.2

/-- A step is a neighbor transition in either direction. -/
def validStep (s : Nat × Nat) : Bool :=
  (s.2 == box_next_neighbor s.1) || (s.1 == box_next_neighbor s.2)

/-- The consecutive `(previous, current)` corner-code pairs of a walk
over `ps` started at code `prev`. -/
def chainSteps (prev : Nat) (ps : List SubContourPoint) : List (Nat × Nat) :=
  List.zip (prev :: ps.map SubContourPoint.corner_point_type)
    (ps.map SubContourPoint.corner_point_type)

/-- The steps of the closed walk over the whole contour, the first step
being the wrap-around from the last point to the first. -/
def cycle_steps (C : List SubContourPoint) : List (Nat × Nat) :=
  match C.getLast? with
  | none => []
  | some last => chainSteps last.corner_point_type C

/-- Number of next-neighbor transitions of the closed walk. -/
def forward_steps (C : List SubContourPoint) : Nat :=
  (cycle_steps C).countP fwdStep

/-- Number of previous-neighbor transitions of the closed walk. -/
def backward_steps (C : List SubContourPoint) : Nat :=
  (cycle_steps C).countP bwdStep

/-- The degeneracy condition of claim C2: the contour is non-empty, all
its points are corner points, every consecutive step (wrap-around
included) is a neighbor transition, and `backwards − forwards` is
divisible by 4. -/
def degenerate_boundary (C : List SubContourPoint) : Bool :=
  !C.isEmpty && C.all SubContourPoint.is_corner_point
    && (cycle_steps C).all validStep
    && (Int.tmod ((backward_steps C : Int) - (forward_steps C : Int)) 4 == 0)

lemma ppLoop_spec (ps : List SubContourPoint) (prev : Nat) (f b : Int) :
    ppLoop prev f b ps =
      if ps.all SubContourPoint.is_corner_point
          && (chainSteps prev ps).all validStep then
        some (f + ((chainSteps prev ps).countP fwdStep : Int),
              b + ((chainSteps prev ps).countP bwdStep : Int))
      else none := by
  induction ps generalizing prev f b with
  | nil => simp [ppLoop, chainSteps]
  | cons p rest ih =>
    have hchain : chainSteps prev (p :: rest)
        = (prev, p.corner_point_type) :: chainSteps p.corner_point_type rest := by
      simp [chainSteps]
    rw [ppLoop, hchain]
    by_cases hc : p.is_corner_point
    · rw [if_neg (by simp [hc])]
      by_cases hf : p.corner_point_type = box_next_neighbor prev
      · rw [if_pos hf, ih]
        have hv : validStep (prev, p.corner_point_type) = true := by
          simp [validStep, hf]
        have hfs : fwdStep (prev, p.corner_point_type) = true := by
          simp [fwdStep, hf]
        have hbs : bwdStep (prev, p.corner_point_type) = false := by
          simp [bwdStep, hf]
        by_cases hrest : rest.all SubContourPoint.is_corner_point
            && (chainSteps p.corner_point_type rest).all validStep
        · rw [if_pos hrest,
              if_pos (by simp_all [List.all_cons])]
          simp [List.countP_cons, hfs, hbs]
          omega
        · rw [if_neg hrest, if_neg (by simp_all [List.all_cons])]
      · rw [if_neg hf]
        by_cases hb : prev = box_next_neighbor p.corner_point_type
        · rw [if_pos hb, ih]
          have hv : validStep (prev, p.corner_point_type) = true := by
            simp [validStep, hb]
          have hfs : fwdStep (prev, p.corner_point_type) = false := by
            simp [fwdStep, hf]
          have hbs : bwdStep (prev, p.corner_point_type) = true := by
            have h1 : (p.corner_point_type == box_next_neighbor prev) = false := by
              simp [hf]
            have h2 : (prev == box_next_neighbor p.corner_point_type) = true := by
              simp [hb]
            simp [bwdStep, h1, h2]
          by_cases hrest : rest.all SubContourPoint.is_corner_point
              && (chainSteps p.corner_point_type rest).all validStep
          · rw [if_pos hrest, if_pos (by simp_all [List.all_cons])]
            simp [List.countP_cons, hfs, hbs]
            omega
          · rw [if_neg hrest, if_neg (by simp_all [List.all_cons])]
        · rw [if_neg hb]
          have hv : validStep (prev, p.corner_point_type) = false := by
            simp [validStep, hf, hb]
          rw [if_neg (by simp [List.all_cons, hv])]
    · rw [if_pos (by simp [hc]), if_neg (by simp [List.all_cons, hc])]

/-- Claim C2: `SubPath::post_process_sub_contour` empties the contour and
returns `(backwards − forwards) / 4` exactly when the contour is
non-empty, every point of it is a corner point, every consecutive step
(including the wrap-around from the last point to the first) goes to the
next-neighbor or previous-neighbor corner in the 4-cycle
`mm → mM → MM → Mm → mm`, and `(backwards − forwards) mod 4 == 0`; in
every other case it returns `0` and leaves the contour unchanged. -/
theorem post_process_sub_contour_spec (C : List SubContourPoint) :
    post_process_sub_contour C =
      if degenerate_boundary C then
        (Int.tdiv ((backward_steps C : Int) - (forward_steps C : Int)) 4, [])
      else (0, C) := by
  cases hL : C.getLast? with
  | none =>
    have hC : C = [] := List.getLast?_eq_none_iff.mp hL
    subst hC
    simp [post_process_sub_contour, degenerate_boundary]
  | some last =>
    have hcyc : cycle_steps C = chainSteps last.corner_point_type C := by
      simp [cycle_steps, hL]
    have hne : C.isEmpty = false := by
      cases C
      · simp at hL
      · simp
    by_cases hc : last.is_corner_point
    · have hpp := ppLoop_spec C last.corner_point_type 0 0
      have hfwd : forward_steps C
          = (chainSteps last.corner_point_type C).countP fwdStep := by
        rw [forward_steps, hcyc]
      have hbwd : backward_steps C
          = (chainSteps last.corner_point_type C).countP bwdStep := by
        rw [backward_steps, hcyc]
      simp only [post_process_sub_contour, hL]
      rw [if_neg (by simp [hc]), hpp]
      by_cases hcond : (C.all SubContourPoint.is_corner_point
          && (chainSteps last.corner_point_type C).all validStep) = true
      · rw [if_pos hcond]
        have hdeg : degenerate_boundary C
            = (Int.tmod ((backward_steps C : Int) - (forward_steps C : Int)) 4
                == 0) := by
          rw [degenerate_boundary, hcyc, hne]
          rw [Bool.not_false, Bool.true_and, hcond, Bool.true_and]
        dsimp only
        simp only [zero_add]
        rw [← hfwd, ← hbwd]
        by_cases hm : Int.tmod ((backward_steps C : Int) - (forward_steps C : Int)) 4 = 0
        · rw [if_pos hm, if_pos (by rw [hdeg]; exact beq_iff_eq.mpr hm)]
        · rw [if_neg hm, if_neg (by rw [hdeg]; simp [hm])]
      · rw [if_neg hcond]
        have hcf : (C.all SubContourPoint.is_corner_point
            && (chainSteps last.corner_point_type C).all validStep) = false :=
          Bool.eq_false_iff.mpr hcond
        have hdeg : degenerate_boundary C = false := by
          rw [degenerate_boundary, hcyc]
          rcases Bool.and_eq_false_iff.mp hcf with h1 | h1 <;> simp [h1]
        rw [if_neg (by simp [hdeg])]
    · simp only [post_process_sub_contour, hL]
      rw [if_pos (by simp [hc])]
      have hmem : last ∈ C := List.mem_of_mem_getLast? hL
      have hall : C.all SubContourPoint.is_corner_point = false := by
        rw [Bool.eq_false_iff]
        intro hA
        exact absurd (List.all_eq_true.mp hA last hmem) (by simp [hc])
      have hdeg : degenerate_boundary C = false := by
        simp [degenerate_boundary, hall]
      rw [if_neg (by simp [hdeg])]

/-! ### WindingSet and the boundary-vertex flag
(filled_path.cpp lines 462-507, 2335-2409, 2842-2878) -/

/-- `WindingSet`: two bounds and a bitset of length `m_end - m_begin`;
bit `w - m_begin` records membership of winding `w`. -/
structure WindingSet where
  m_begin : Int
  m_end : Int
  m_bits : List Bool
deriving DecidableEq, Repr

/-- `WindingSet::have_common_bit`: scan the overlap
`[max(begins), min(ends))` for a winding whose bit is set in both. -/
def WindingSet.have_common_bit (a obj : WindingSet) : Bool :=
  (List.range (min a.m_end obj.m_end - max a.m_begin obj.m_begin).toNat).any
    (fun k =>
      a.m_bits.getD (max a.m_begin obj.m_begin + k - a.m_begin).toNat false
        && obj.m_bits.getD (max a.m_begin obj.m_begin + k - obj.m_begin).toNat false)

/-- `WindingSet::has`: bounds-checked bit test. -/
def WindingSet.has (s : WindingSet) (w : Int) : Bool :=
  if s.m_begin ≤ w ∧ w < s.m_end then
    s.m_bits.getD (w - s.m_begin).toNat false
  else false

/-- `WindingSet::extract_from_fill_fule` (sic): encode over
`[min_value, max_value]` the rule itself (`flip = false`) or its
complement (`flip = true`), via `fill_rule(w) != flip`. -/
def WindingSet.extract_from_fill_fule (min_value max_value : Int)
    (fill_rule : Int → Bool) (flip : Bool) : WindingSet :=
  { m_begin := min_value
  , m_end := max_value + 1
  , m_bits := (List.range (max_value + 1 - min_value).toNat).map
      (fun (k : Nat) => fill_rule (min_value + (k : Int)) != flip) }

/-- `WindingSet::extract_from_set`: bounds from the least and greatest
element of the (sorted, `std::set` iteration order) value list, then set
the bit of every element.  The empty set gives the empty range. -/
def WindingSet.extract_from_set (in_values : List Int) : WindingSet :=
  match in_values with
  | [] => { m_begin := 0, m_end := 0, m_bits := [] }
  | v0 :: rest =>
    let b := v0
    let e := ((v0 :: rest).getLast?.getD v0) + 1
    { m_begin := b
    , m_end := e
    , m_bits := (v0 :: rest).foldl
        (fun bits v => bits.set (v - b).toNat true)
        (List.replicate (e - b).toNat false) }

lemma foldl_set_getD (vals : List Int) (b : Int) (bits : List Bool) (j : Nat) :
    (vals.foldl (fun bs v => bs.set (v - b).toNat true) bits).getD j false
      = (bits.getD j false
          || (decide (j < bits.length)
              && vals.any (fun v => (v - b).toNat == j))) := by
  induction vals generalizing bits with
  | nil => simp
  | cons v vs ih =>
    rw [List.foldl_cons, ih]
    rw [List.getD_eq_getElem?_getD, List.getElem?_set, List.length_set]
    by_cases hj : j < bits.length
    · by_cases hv : (v - b).toNat = j
      · simp [hv, hj, List.any_cons]
      · rw [if_neg hv]
        rw [← List.getD_eq_getElem?_getD]
        simp only [List.any_cons]
        have hbe : ((v - b).toNat == j) = false := by simp [hv]
        simp [hbe]
    · have hb1 : bits.getD j false = false := by
        rw [List.getD_eq_getElem?_getD, List.getElem?_eq_none (by omega)]
        rfl
      rw [List.getD_eq_getElem?_getD] at hb1
      by_cases hv : (v - b).toNat = j
      · simp [hv, hj, hb1]
      · rw [if_neg hv]
        simp [hj, hb1]

lemma contains_eq_decide_mem (l : List Int) (w : Int) :
    l.contains w = decide (w ∈ l) := by
  simp [List.contains, List.elem_eq_mem]

lemma sorted_le_getLast? (l : List Int) (h : List.Sorted (· < ·) l) :
    ∀ v ∈ l, ∀ m, l.getLast? = some m → v ≤ m := by
  induction l with
  | nil => simp
  | cons a as ih =>
    intro v hv m hm
    rcases List.pairwise_cons.mp h with ⟨ha, hs⟩
    cases as with
    | nil =>
      simp at hm hv
      omega
    | cons c cs =>
      rw [List.getLast?_cons_cons] at hm
      rcases List.mem_cons.mp hv with rfl | hv2
      · have hmem : m ∈ c :: cs := List.mem_of_mem_getLast? hm
        exact le_of_lt (ha m hmem)
      · exact ih hs v hv2 m hm

/-- Characterization of `extract_from_set` on a sorted value list: `has`
is exactly list membership. -/
lemma extract_from_set_has (vals : List Int)
    (hs : List.Sorted (· < ·) vals) (w : Int) :
    (WindingSet.extract_from_set vals).has w = vals.contains w := by
  cases vals with
  | nil => simp [WindingSet.extract_from_set, WindingSet.has]
  | cons v0 rest =>
    have hlast : ∀ v ∈ v0 :: rest, v ≤ ((v0 :: rest).getLast?.getD v0) := by
      intro v hv
      cases hm : (v0 :: rest).getLast? with
      | none => simp at hm
      | some m =>
        simpa using sorted_le_getLast? _ hs v hv m hm
    have hhead : ∀ v ∈ v0 :: rest, v0 ≤ v := by
      intro v hv
      rcases List.mem_cons.mp hv with rfl | hv2
      · exact le_refl v
      · exact le_of_lt ((List.pairwise_cons.mp hs).1 v hv2)
    unfold WindingSet.extract_from_set WindingSet.has
    dsimp only
    set e := ((v0 :: rest).getLast?.getD v0) + 1 with he
    by_cases hw : v0 ≤ w ∧ w < e
    · rw [if_pos hw]
      rw [foldl_set_getD]
      have hrep : (List.replicate (e - v0).toNat false).getD (w - v0).toNat false
          = false := by
        rw [List.getD_eq_getElem?_getD, List.getElem?_replicate]
        by_cases hlt : (w - v0).toNat < (e - v0).toNat <;> simp [hlt]
      rw [hrep, List.length_replicate]
      have hjlt : (w - v0).toNat < (e - v0).toNat := by omega
      rw [Bool.false_or]
      rw [decide_eq_true hjlt, Bool.true_and]
      rcases hcw : (v0 :: rest).contains w with _ | _
      · rw [List.any_eq_false]
        intro v hv
        have hne : v ≠ w := by
          intro heq
          subst heq
          rw [contains_eq_decide_mem] at hcw
          simp [hv] at hcw
        have hvb := hhead v hv
        intro habs
        simp only [beq_iff_eq] at habs
        exact hne (by omega)
      · rw [List.any_eq_true]
        rw [contains_eq_decide_mem, decide_eq_true_eq] at hcw
        refine ⟨w, hcw, by simp⟩
    · rw [if_neg hw]
      symm
      rw [contains_eq_decide_mem, decide_eq_false_iff_not]
      intro habs
      have h1 := hhead w habs
      have h2 := hlast w habs
      omega

/-- `have_common_bit` is exactly the existence of a winding `has`-member
of both sets. -/
lemma have_common_bit_iff (a obj : WindingSet) :
    a.have_common_bit obj = true
      ↔ ∃ w : Int, a.has w = true ∧ obj.has w = true := by
  unfold WindingSet.have_common_bit
  rw [List.any_eq_true]
  constructor
  · rintro ⟨k, hk, hbits⟩
    rw [List.mem_range] at hk
    rcases Bool.and_eq_true _ _ |>.mp hbits with ⟨h1, h2⟩
    refine ⟨max a.m_begin obj.m_begin + k, ?_, ?_⟩
    · unfold WindingSet.has
      rw [if_pos (by constructor <;> omega)]
      exact h1
    · unfold WindingSet.has
      rw [if_pos (by constructor <;> omega)]
      exact h2
  · rintro ⟨w, h1, h2⟩
    unfold WindingSet.has at h1 h2
    by_cases hb1 : a.m_begin ≤ w ∧ w < a.m_end
    · by_cases hb2 : obj.m_begin ≤ w ∧ w < obj.m_end
      · rw [if_pos hb1] at h1
        rw [if_pos hb2] at h2
        refine ⟨(w - max a.m_begin obj.m_begin).toNat, ?_, ?_⟩
        · rw [List.mem_range]
          omega
        · have hw : max a.m_begin obj.m_begin
              + ((w - max a.m_begin obj.m_begin).toNat : Int) = w := by omega
          rw [hw, h1, h2]
          rfl
      · rw [if_neg hb2] at h2
        exact absurd h2 (by simp)
    · rw [if_neg hb1] at h1
      exact absurd h1 (by simp)

/-- `AttributeDataFiller::fill_winding_data`: the per-vertex winding set
of vertex `v` is `extract_from_set` of its `FillPoint::m_winding` set. -/
def fill_winding_data (points : List (List Int)) : List WindingSet :=
  points.map WindingSet.extract_from_set

/-- A painter attribute slot 0: `(x, y, z)`. -/
structure PainterAttribute where
  ax : ℚ
  ay : ℚ
  az : ℚ
deriving DecidableEq, Repr, Inhabited

/-- `pack_float` stores a float value bit-exactly into the attribute
slot; value-preserving, so the identity here. -/
def pack_float (f : ℚ) : ℚ := f

/-- `FilledPath::DataWriter::write_attributes` (filled_path.cpp lines
2842-2878): copy `x`/`y`, and set `z` to `0.0` when the complement of the
active fill rule has a common bit with the vertex winding set (boundary),
else `1.0` (interior). -/
def write_attributes (complement_winding_rule : WindingSet)
    (src : List PainterAttribute) (w_src : List WindingSet) :
    List PainterAttribute :=
  (List.zip src w_src).map
    (fun p =>
      { ax := p.1.ax
      , ay := p.1.ay
      , az := pack_float
          (if complement_winding_rule.have_common_bit p.2 then 0 else 1) })

lemma extract_from_fill_fule_has (min_value max_value : Int)
    (fill_rule : Int → Bool) (flip : Bool) (w : Int) :
    (WindingSet.extract_from_fill_fule min_value max_value fill_rule flip).has w
      = if min_value ≤ w ∧ w ≤ max_value then fill_rule w != flip
        else false := by
  unfold WindingSet.extract_from_fill_fule WindingSet.has
  dsimp only
  by_cases hw : min_value ≤ w ∧ w < max_value + 1
  · rw [if_pos hw, if_pos (by omega)]
    rw [List.getD_eq_getElem?_getD, List.getElem?_map,
        List.getElem?_range (by omega)]
    have harg : min_value + ((w - min_value).toNat : Int) = w := by omega
    simp only [Option.map_some', Option.getD_some, harg]
  · rw [if_neg hw, if_neg (by omega)]

/-- Claim C3: for every vertex written by `DataWriter::write_attributes`
under an active fill rule, the `z` component of attribute slot 0 is `0.0`
(boundary) iff the vertex winding set meets the complement of the fill
rule over the observed winding range `[min_w, max_w]` — that is, iff the
vertex is incident to at least one winding the rule does not select — and
`1.0` (interior) otherwise; `x` and `y` are copied unchanged. -/
theorem write_attributes_boundary_flag
    (fill_rule : Int → Bool) (min_w max_w : Int)
    (attrs : List PainterAttribute) (wsets : List (List Int)) (i : Nat)
    (hi : i < attrs.length) (hlen : wsets.length = attrs.length)
    (hsorted : ∀ S ∈ wsets, List.Sorted (· < ·) S)
    (hrange : ∀ S ∈ wsets, ∀ v ∈ S, min_w ≤ v ∧ v ≤ max_w) :
    ((write_attributes
        (WindingSet.extract_from_fill_fule min_w max_w fill_rule true)
        attrs (fill_winding_data wsets)).getD i default).ax
      = (attrs.getD i default).ax ∧
    ((write_attributes
        (WindingSet.extract_from_fill_fule min_w max_w fill_rule true)
        attrs (fill_winding_data wsets)).getD i default).ay
      = (attrs.getD i default).ay ∧
    ((write_attributes
        (WindingSet.extract_from_fill_fule min_w max_w fill_rule true)
        attrs (fill_winding_data wsets)).getD i default).az
      = (if (wsets.getD i []).any (fun v => !(fill_rule v)) then (0 : ℚ)
         else 1) := by
  have hiw : i < wsets.length := by omega
  have hS : wsets.getD i [] ∈ wsets := by
    rw [List.getD_eq_getElem _ _ hiw]
    exact List.getElem_mem hiw
  have hzl : (List.zip attrs (fill_winding_data wsets)).length = attrs.length := by
    simp [List.length_zip, fill_winding_data, hlen]
  have hil : i < (List.zip attrs (fill_winding_data wsets)).length := by omega
  have hout : (write_attributes
      (WindingSet.extract_from_fill_fule min_w max_w fill_rule true)
      attrs (fill_winding_data wsets)).getD i default
    = { ax := (attrs.getD i default).ax
      , ay := (attrs.getD i default).ay
      , az := pack_float
          (if (WindingSet.extract_from_fill_fule min_w max_w fill_rule
                true).have_common_bit
              (WindingSet.extract_from_set (wsets.getD i [])) then 0
           else 1) } := by
    unfold write_attributes
    rw [List.getD_eq_getElem _ _ (by rw [List.length_map]; omega)]
    rw [List.getElem_map _ (h := by rw [List.length_map]; omega)]
    rw [List.getElem_zip (h := hil)]
    unfold fill_winding_data
    rw [List.getElem_map _ (h := by rw [List.length_map]; omega)]
    rw [List.getD_eq_getElem _ _ hi, List.getD_eq_getElem _ _ hiw]
  have hbool : (WindingSet.extract_from_fill_fule min_w max_w fill_rule
        true).have_common_bit
      (WindingSet.extract_from_set (wsets.getD i []))
    = (wsets.getD i []).any (fun v => !(fill_rule v)) := by
    rw [Bool.eq_iff_iff, have_common_bit_iff, List.any_eq_true]
    constructor
    · rintro ⟨w, h1, h2⟩
      rw [extract_from_fill_fule_has] at h1
      rw [extract_from_set_has _ (hsorted _ hS), contains_eq_decide_mem,
          decide_eq_true_eq] at h2
      by_cases hwr : min_w ≤ w ∧ w ≤ max_w
      · rw [if_pos hwr] at h1
        refine ⟨w, h2, ?_⟩
        simpa using h1
      · rw [if_neg hwr] at h1
        exact absurd h1 (by simp)
    · rintro ⟨v, hv, hrv⟩
      refine ⟨v, ?_, ?_⟩
      · rw [extract_from_fill_fule_has, if_pos (hrange _ hS v hv)]
        simpa using hrv
      · rw [extract_from_set_has _ (hsorted _ hS), contains_eq_decide_mem,
            decide_eq_true_eq]
        exact hv
  rw [hout]
  refine ⟨rfl, rfl, ?_⟩
  dsimp only
  rw [hbool]
  unfold pack_float
  rcases (wsets.getD i []).any (fun v => !(fill_rule v)) with _ | _ <;> simp

/-- Witness for claim C3: a single vertex at `(5, 6)` whose winding set
is `{0, 1}` under the nonzero fill rule over observed range `[0, 1]`; the
winding `0` is not selected, so the vertex is marked boundary
(`z = 0`). -/
theorem write_attributes_boundary_flag_witness :
    ((write_attributes
        (WindingSet.extract_from_fill_fule 0 1 (fun w => w != 0) true)
        [{ ax := 5, ay := 6, az := 9 }]
        (fill_winding_data [[0, 1]])).getD 0 default).ax
      = (([{ ax := 5, ay := 6, az := 9 }].getD 0 default :
            PainterAttribute)).ax ∧
    ((write_attributes
        (WindingSet.extract_from_fill_fule 0 1 (fun w => w != 0) true)
        [{ ax := 5, ay := 6, az := 9 }]
        (fill_winding_data [[0, 1]])).getD 0 default).ay
      = (([{ ax := 5, ay := 6, az := 9 }].getD 0 default :
            PainterAttribute)).ay ∧
    ((write_attributes
        (WindingSet.extract_from_fill_fule 0 1 (fun w => w != 0) true)
        [{ ax := 5, ay := 6, az := 9 }]
        (fill_winding_data [[0, 1]])).getD 0 default).az
      = (if ([[0, 1]].getD 0 []).any (fun v => !((fun w => w != 0) v))
         then (0 : ℚ) else 1) :=
  write_attributes_boundary_flag (fun w => w != 0) 0 1
    [{ ax := 5, ay := 6, az := 9 }] [[0, 1]] 0
    (by decide) (by decide)
    (by
      intro S hS
      simp only [List.mem_singleton] at hS
      subst hS
      decide)
    (by
      intro S hS
      simp only [List.mem_singleton] at hS
      subst hS
      decide)

/-! ### CoordinateConverter, PointHoard and triangle emission
(filled_path.cpp lines 144-170, 252-306, 509-576, 1402-1430, 1745-1868,
1943-1949, 1992-1998) -/

/-- `CoordinateConverterConstants::box_dim = 1 << 22`. -/
def box_dim : Nat := 2 ^ 22

/-- `CoordinateConverter`: scale and translate mapping the bounding box
onto `[0, box_dim]²` (the fudge delta only affects the `fp64` path fed to
GLU-tess, not the quantization used here). -/
structure CoordinateConverter where
  m_scale : ℚ × ℚ
  m_translate : ℚ × ℚ
deriving DecidableEq, Repr

/-- The `CoordinateConverter` constructor: `scale = box_dim / delta`
per coordinate, `translate = pmin`. -/
def CoordinateConverter.ofBounds (fpmin fpmax : ℚ × ℚ) : CoordinateConverter :=
  { m_scale := ((box_dim : ℚ) / (fpmax.1 - fpmin.1),
                (box_dim : ℚ) / (fpmax.2 - fpmin.2))
  , m_translate := fpmin }

/-- `static_cast<int>` of a real value: truncation toward zero. -/
def qtrunc (q : ℚ) : Int := Int.tdiv q.num (q.den : Int)

/-- `CoordinateConverter::iapply`: quantize to integer grid
coordinates. -/
def CoordinateConverter.iapply (c : CoordinateConverter) (pt : ℚ × ℚ) :
    Int × Int :=
  (qtrunc (c.m_scale.1 * (pt.1 - c.m_translate.1)),
   qtrunc (c.m_scale.2 * (pt.2 - c.m_translate.2)))

/-- `FillPoint`: stored vertex position and the set of winding numbers of
triangles incident on it. -/
structure FillPoint where
  m_pt : ℚ × ℚ
  m_winding : Finset Int
deriving DecidableEq, Inhabited

/-- `PointHoard`: converter, the map from quantized coordinates to dense
vertex IDs, and the shared vertex table. -/
structure PointHoard where
  m_converter : CoordinateConverter
  m_map : List ((Int × Int) × Nat)
  m_pts : List FillPoint
deriving DecidableEq

/-- `PointHoard::fetch`: deduplicate by quantized coordinates; on a miss
allocate the next dense ID and append a new `FillPoint` with empty
winding set. -/
def PointHoard.fetch (h : PointHoard) (pt : ℚ × ℚ) : Nat × PointHoard :=
  let ipt := h.m_converter.iapply pt
  match h.m_map.lookup ipt with
  | some v => (v, h)
  | none =>
    (h.m_pts.length,
     { h with
       m_map := (ipt, h.m_pts.length) :: h.m_map
     , m_pts := h.m_pts ++ [{ m_pt := pt, m_winding := ∅ }] })

/-- `PointHoard::add_to_winding_set`: insert `winding` into the winding
set of vertex `v` (the source asserts `v < m_pts.size()`). -/
def PointHoard.add_to_winding_set (h : PointHoard) (v : Nat) (winding : Int) :
    PointHoard :=
  match h.m_pts[v]? with
  | some fp =>
    let fp2 : FillPoint := { fp with m_winding := insert winding fp.m_winding }
    { h with m_pts := h.m_pts.set v fp2 }
  | none => h

/-- Modelled from the spec: `FASTUIDRAW_GLU_NULL_CLIENT_ID`, the sentinel
null vertex ID of the GLU-tess layer (its header is not under `src/`);
the all-ones 32-bit unsigned value. -/
def FASTUIDRAW_GLU_NULL_CLIENT_ID : Nat := 4294967295

/-- The per-polygon emission state of a tesser: the point hoard and the
index list of the current winding bucket
(`non_zero_tesser::m_current_indices` / `zero_tesser::m_indices`). -/
structure TesserState where
  m_points : PointHoard
  m_indices : List Nat
deriving DecidableEq

/-- `add_vertex_to_polygon` of the two tesser subclasses: append the
vertex index to the current bucket and record the polygon winding in the
vertex winding set. -/
def add_vertex_to_polygon (st : TesserState) (winding : Int) (vertex : Nat) :
    TesserState :=
  { m_points := st.m_points.add_to_winding_set vertex winding
  , m_indices := st.m_indices ++ [vertex] }

/-- `tesser::add_triangle`: three `add_vertex_to_polygon` calls. -/
def add_triangle (st : TesserState) (winding : Int) (a b c : Nat) :
    TesserState :=
  add_vertex_to_polygon
    (add_vertex_to_polygon (add_vertex_to_polygon st winding a) winding b)
    winding c

/-- The cross product `(p1 − p0) × (p2 − p0)` whose absolute value the
source compares against zero. -/
def signed_area_cross (pts : List FillPoint) (t0 t1 t2 : Nat) : ℚ :=
  let p0 := (pts.getD t0 default).m_pt
  let p1 := (pts.getD t1 default).m_pt
  let p2 := (pts.getD t2 default).m_pt
  (p1.1 - p0.1) * (p2.2 - p0.2) - (p1.2 - p0.2) * (p2.1 - p0.1)

/-- `tesser::temp_verts_non_degenerate_triangle` (filled_path.cpp lines
1754-1784): reject equal IDs, equal positions, and zero
`area = t_abs(cross)`. -/
def temp_verts_non_degenerate_triangle (pts : List FillPoint)
    (t0 t1 t2 : Nat) : Bool :=
  if t0 == t1 || t0 == t2 || t1 == t2 then false
  else
    if (pts.getD t0 default).m_pt == (pts.getD t1 default).m_pt
        || (pts.getD t0 default).m_pt == (pts.getD t2 default).m_pt
        || (pts.getD t1 default).m_pt == (pts.getD t2 default).m_pt then
      false
    else
      decide (|signed_area_cross pts t0 t1 t2| > 0)

/-- The acceptance test of `tesser::vertex_callBack` on a completed
triple: no null client ID and `temp_verts_non_degenerate_triangle`. -/
def triangle_accepted (st : TesserState) (t0 t1 t2 : Nat) : Bool :=
  t0 != FASTUIDRAW_GLU_NULL_CLIENT_ID
    && t1 != FASTUIDRAW_GLU_NULL_CLIENT_ID
    && t2 != FASTUIDRAW_GLU_NULL_CLIENT_ID
    && temp_verts_non_degenerate_triangle st.m_points.m_pts t0 t1 t2

/-- The four `PointHoard::fetch` calls of an accepted triangle: edge
midpoints `m01`, `m02`, `m12` and centroid `c`, in source order. -/
def fetch_midpoints (st : TesserState) (t0 t1 t2 : Nat) :
    (Nat × Nat × Nat × Nat) × PointHoard :=
  let p0 := (st.m_points.m_pts.getD t0 default).m_pt
  let p1 := (st.m_points.m_pts.getD t1 default).m_pt
  let p2 := (st.m_points.m_pts.getD t2 default).m_pt
  let m01 : ℚ × ℚ := ((p0.1 + p1.1) / 2, (p0.2 + p1.2) / 2)
  let m02 : ℚ × ℚ := ((p0.1 + p2.1) / 2, (p0.2 + p2.2) / 2)
  let m12 : ℚ × ℚ := ((p1.1 + p2.1) / 2, (p1.2 + p2.2) / 2)
  let c : ℚ × ℚ := ((p0.1 + p1.1 + p2.1) / 3, (p0.2 + p1.2 + p2.2) / 3)
  let r01 := st.m_points.fetch m01
  let r02 := r01.2.fetch m02
  let r12 := r02.2.fetch m12
  let rc := r12.2.fetch c
  ((r01.1, r02.1, r12.1, rc.1), rc.2)

/-- The 18 vertex indices of the six sub-triangles
`(a, m_ab, g), (a, g, m_ac), (g, b, m_bc), (m_ab, b, g), (m_ac, g, c),
(g, m_bc, c)`, flattened in emission order. -/
def emission_indices (t0 t1 t2 i01 i02 i12 ic : Nat) : List Nat :=
  [t0, i01, ic, t0, ic, i02, ic, t1, i12, i01, t1, ic, i02, ic, t2,
   ic, i12, t2]

/-- The triangle-complete branch of `tesser::vertex_callBack` (lines
1817-1866): on acceptance fetch the midpoints and centroid and emit the
six sub-triangles; otherwise do nothing. -/
def process_triangle (st : TesserState) (winding : Int) (t0 t1 t2 : Nat) :
    TesserState :=
  if triangle_accepted st t0 t1 t2 then
    let fm := fetch_midpoints st t0 t1 t2
    let i01 := fm.1.1
    let i02 := fm.1.2.1
    let i12 := fm.1.2.2.1
    let ic := fm.1.2.2.2
    let st1 : TesserState := { m_points := fm.2, m_indices := st.m_indices }
    add_triangle (add_triangle (add_triangle (add_triangle (add_triangle
      (add_triangle st1 winding t0 i01 ic)
      winding t0 ic i02)
      winding ic t1 i12)
      winding i01 t1 ic)
      winding i02 ic t2)
      winding ic i12 t2
  else st

/-- Claim C4 (amended): a completed triple is accepted iff none of the
three vertex IDs is the null sentinel, the IDs are mutually distinct, the
positions are mutually distinct, and the cross product
`(v1−v0) × (v2−v0)` is nonzero — the source compares the *absolute
value* of the signed area against zero, not the signed area itself; and a
rejected triangle changes nothing: no indices and no winding-set
entries. -/
theorem triangle_acceptance_spec (st : TesserState) (winding : Int)
    (t0 t1 t2 : Nat) :
    (triangle_accepted st t0 t1 t2 = true
      ↔ (t0 ≠ FASTUIDRAW_GLU_NULL_CLIENT_ID
         ∧ t1 ≠ FASTUIDRAW_GLU_NULL_CLIENT_ID
         ∧ t2 ≠ FASTUIDRAW_GLU_NULL_CLIENT_ID
         ∧ t0 ≠ t1 ∧ t0 ≠ t2 ∧ t1 ≠ t2
         ∧ (st.m_points.m_pts.getD t0 default).m_pt
             ≠ (st.m_points.m_pts.getD t1 default).m_pt
         ∧ (st.m_points.m_pts.getD t0 default).m_pt
             ≠ (st.m_points.m_pts.getD t2 default).m_pt
         ∧ (st.m_points.m_pts.getD t1 default).m_pt
             ≠ (st.m_points.m_pts.getD t2 default).m_pt
         ∧ signed_area_cross st.m_points.m_pts t0 t1 t2 ≠ 0)) ∧
    (triangle_accepted st t0 t1 t2 = false →
      process_triangle st winding t0 t1 t2 = st) := by
  constructor
  · unfold triangle_accepted temp_verts_non_degenerate_triangle
    by_cases hid : t0 == t1 || t0 == t2 || t1 == t2
    · rw [if_pos hid]
      simp only [Bool.and_false, Bool.false_eq_true, false_iff]
      intro hcl
      rcases Bool.or_eq_true _ _ |>.mp hid with h | h
      · rcases Bool.or_eq_true _ _ |>.mp h with h2 | h2
        · exact hcl.2.2.2.1 (by simpa using h2)
        · exact hcl.2.2.2.2.1 (by simpa using h2)
      · exact hcl.2.2.2.2.2.1 (by simpa using h)
    · rw [if_neg hid]
      by_cases hpt : (st.m_points.m_pts.getD t0 default).m_pt
            == (st.m_points.m_pts.getD t1 default).m_pt
          || (st.m_points.m_pts.getD t0 default).m_pt
            == (st.m_points.m_pts.getD t2 default).m_pt
          || (st.m_points.m_pts.getD t1 default).m_pt
            == (st.m_points.m_pts.getD t2 default).m_pt
      · rw [if_pos hpt]
        simp only [Bool.and_false, Bool.false_eq_true, false_iff]
        intro hcl
        rcases Bool.or_eq_true _ _ |>.mp hpt with h | h
        · rcases Bool.or_eq_true _ _ |>.mp h with h2 | h2
          · exact hcl.2.2.2.2.2.2.1 (by simpa using h2)
          · exact hcl.2.2.2.2.2.2.2.1 (by simpa using h2)
        · exact hcl.2.2.2.2.2.2.2.2.1 (by simpa using h)
      · rw [if_neg hpt]
        simp only [Bool.or_eq_true, not_or] at hid hpt
        constructor
        · intro hacc
          simp only [Bool.and_eq_true, bne_iff_ne, ne_eq,
            decide_eq_true_eq] at hacc
          refine ⟨hacc.1.1.1, hacc.1.1.2, hacc.1.2, ?_, ?_, ?_, ?_, ?_, ?_,
            abs_pos.mp hacc.2⟩
          · simpa using hid.1.1
          · simpa using hid.1.2
          · simpa using hid.2
          · simpa using hpt.1.1
          · simpa using hpt.1.2
          · simpa using hpt.2
        · intro hcl
          simp only [Bool.and_eq_true, bne_iff_ne, ne_eq,
            decide_eq_true_eq]
          exact ⟨⟨⟨hcl.1, hcl.2.1⟩, hcl.2.2.1⟩,
            abs_pos.mpr hcl.2.2.2.2.2.2.2.2.2⟩
  · intro hrej
    unfold process_triangle
    rw [if_neg (by simp [hrej])]

/-- Counterexample for claim C4 as stated: the triangle over vertices
`(0,0)`, `(0,1)`, `(1,0)` (IDs 0, 1, 2) has *negative* signed area
`(v1−v0) × (v2−v0) = −1`, yet the source accepts it, because the test is
`t_abs(area) > 0`. -/
theorem triangle_acceptance_counterexample :
    triangle_accepted
      { m_points :=
          { m_converter := CoordinateConverter.ofBounds (0, 0) (1, 1)
          , m_map := []
          , m_pts := [ { m_pt := (0, 0), m_winding := ∅ }
                     , { m_pt := (0, 1), m_winding := ∅ }
                     , { m_pt := (1, 0), m_winding := ∅ } ] }
      , m_indices := [] } 0 1 2 = true ∧
    signed_area_cross
      [ { m_pt := (0, 0), m_winding := ∅ }
      , { m_pt := (0, 1), m_winding := ∅ }
      , { m_pt := (1, 0), m_winding := ∅ } ] 0 1 2 < 0 := by
  constructor
  · unfold triangle_accepted temp_verts_non_degenerate_triangle
      signed_area_cross FASTUIDRAW_GLU_NULL_CLIENT_ID
    norm_num [List.getD, Prod.ext_iff]
  · unfold signed_area_cross
    norm_num [List.getD]

/-- Witness for claim C4's rejection branch: a triple with two equal IDs
is rejected and the state is unchanged. -/
theorem triangle_acceptance_spec_witness :
    process_triangle
      { m_points :=
          { m_converter := CoordinateConverter.ofBounds (0, 0) (1, 1)
          , m_map := []
          , m_pts := [ { m_pt := (0, 0), m_winding := ∅ }
                     , { m_pt := (0, 1), m_winding := ∅ } ] }
      , m_indices := [] } 5 0 0 1
    = { m_points :=
          { m_converter := CoordinateConverter.ofBounds (0, 0) (1, 1)
          , m_map := []
          , m_pts := [ { m_pt := (0, 0), m_winding := ∅ }
                     , { m_pt := (0, 1), m_winding := ∅ } ] }
      , m_indices := [] } :=
  (triangle_acceptance_spec _ 5 0 0 1).2 (by decide)

/-! ### Emission of the six sub-triangles of an accepted triangle -/

/-- The map invariant of a `PointHoard`: every ID stored in the
deduplication map indexes into the vertex table. -/
def hoard_wf (h : PointHoard) : Prop :=
  ∀ pr ∈ h.m_map, pr.2 < h.m_pts.length

lemma lookup_lt_of_wf (l : List ((Int × Int) × Nat)) (k : Int × Int)
    (v n : Nat) (hwf : ∀ pr ∈ l, pr.2 < n) (hl : l.lookup k = some v) :
    v < n := by
  induction l with
  | nil => simp [List.lookup] at hl
  | cons pr rest ih =>
    rw [List.lookup] at hl
    cases hk : (k == pr.1) with
    | true =>
      simp only [hk] at hl
      have hpv : pr.2 = v := by simpa using hl
      exact hpv ▸ hwf pr (List.mem_cons_self _ _)
    | false =>
      simp only [hk] at hl
      exact ih (fun q hq => hwf q (List.mem_cons_of_mem _ hq)) hl

lemma fetch_len_le (h : PointHoard) (p : ℚ × ℚ) :
    h.m_pts.length ≤ (h.fetch p).2.m_pts.length := by
  unfold PointHoard.fetch
  dsimp only
  cases hl : List.lookup (h.m_converter.iapply p) h.m_map <;>
    simp [hl, List.length_append]

lemma fetch_wf (h : PointHoard) (p : ℚ × ℚ) (hwf : hoard_wf h) :
    hoard_wf (h.fetch p).2 := by
  unfold PointHoard.fetch
  dsimp only
  cases hl : List.lookup (h.m_converter.iapply p) h.m_map with
  | some v => simpa [hl] using hwf
  | none =>
    rw [hoard_wf]
    simp only [hl]
    intro pr hpr
    simp only [List.length_append, List.length_cons, List.length_nil]
    rcases List.mem_cons.mp hpr with rfl | hmem
    · simp
    · have := hwf pr hmem
      omega

lemma fetch_id_lt (h : PointHoard) (p : ℚ × ℚ) (hwf : hoard_wf h) :
    (h.fetch p).1 < (h.fetch p).2.m_pts.length := by
  unfold PointHoard.fetch
  dsimp only
  cases hl : List.lookup (h.m_converter.iapply p) h.m_map with
  | some v =>
    simp only [hl]
    exact lookup_lt_of_wf _ _ _ _ hwf hl
  | none =>
    simp [hl, List.length_append]

lemma fetch_chain_wf4 (h : PointHoard) (q1 q2 q3 q4 : ℚ × ℚ)
    (hwf : hoard_wf h) :
    h.m_pts.length
        ≤ ((((h.fetch q1).2.fetch q2).2.fetch q3).2.fetch q4).2.m_pts.length ∧
    (h.fetch q1).1
        < ((((h.fetch q1).2.fetch q2).2.fetch q3).2.fetch q4).2.m_pts.length ∧
    ((h.fetch q1).2.fetch q2).1
        < ((((h.fetch q1).2.fetch q2).2.fetch q3).2.fetch q4).2.m_pts.length ∧
    (((h.fetch q1).2.fetch q2).2.fetch q3).1
        < ((((h.fetch q1).2.fetch q2).2.fetch q3).2.fetch q4).2.m_pts.length ∧
    ((((h.fetch q1).2.fetch q2).2.fetch q3).2.fetch q4).1
        < ((((h.fetch q1).2.fetch q2).2.fetch q3).2.fetch q4).2.m_pts.length := by
  have w1 := fetch_wf h q1 hwf
  have w2 := fetch_wf _ q2 w1
  have w3 := fetch_wf _ q3 w2
  have l1 := fetch_len_le h q1
  have l2 := fetch_len_le (h.fetch q1).2 q2
  have l3 := fetch_len_le ((h.fetch q1).2.fetch q2).2 q3
  have l4 := fetch_len_le (((h.fetch q1).2.fetch q2).2.fetch q3).2 q4
  have i1 := fetch_id_lt h q1 hwf
  have i2 := fetch_id_lt _ q2 w1
  have i3 := fetch_id_lt _ q3 w2
  have i4 := fetch_id_lt _ q4 w3
  exact ⟨by omega, by omega, by omega, by omega, i4⟩

lemma fetch_midpoints_bounds (st : TesserState) (t0 t1 t2 : Nat)
    (hwf : hoard_wf st.m_points) :
    st.m_points.m_pts.length ≤ (fetch_midpoints st t0 t1 t2).2.m_pts.length ∧
    (fetch_midpoints st t0 t1 t2).1.1
        < (fetch_midpoints st t0 t1 t2).2.m_pts.length ∧
    (fetch_midpoints st t0 t1 t2).1.2.1
        < (fetch_midpoints st t0 t1 t2).2.m_pts.length ∧
    (fetch_midpoints st t0 t1 t2).1.2.2.1
        < (fetch_midpoints st t0 t1 t2).2.m_pts.length ∧
    (fetch_midpoints st t0 t1 t2).1.2.2.2
        < (fetch_midpoints st t0 t1 t2).2.m_pts.length := by
  unfold fetch_midpoints
  dsimp only
  exact fetch_chain_wf4 st.m_points _ _ _ _ hwf

lemma add_to_winding_set_length (h : PointHoard) (v : Nat) (w : Int) :
    (h.add_to_winding_set v w).m_pts.length = h.m_pts.length := by
  unfold PointHoard.add_to_winding_set
  cases hv : h.m_pts[v]? <;> simp

lemma add_to_winding_set_mem_self (h : PointHoard) (v : Nat) (w : Int)
    (hv : v < h.m_pts.length) :
    w ∈ ((h.add_to_winding_set v w).m_pts.getD v default).m_winding := by
  unfold PointHoard.add_to_winding_set
  rw [List.getElem?_eq_getElem hv]
  dsimp only
  rw [List.getD_eq_getElem _ _ (by simpa using hv)]
  rw [List.getElem_set_self]
  exact Finset.mem_insert_self w _

lemma add_to_winding_set_mem_mono (h : PointHoard) (u v : Nat) (w w2 : Int)
    (hmem : w ∈ ((h.m_pts.getD v default)).m_winding) :
    w ∈ (((h.add_to_winding_set u w2).m_pts.getD v default)).m_winding := by
  unfold PointHoard.add_to_winding_set
  cases hu : h.m_pts[u]? with
  | none => exact hmem
  | some fp =>
    dsimp only
    have hul : u < h.m_pts.length := by
      rcases List.getElem?_eq_some.mp hu with ⟨hlt, _⟩
      exact hlt
    by_cases hv : v < h.m_pts.length
    · rw [List.getD_eq_getElem _ _ (by simpa using hv)]
      rw [List.getD_eq_getElem _ _ hv] at hmem
      by_cases hvu : u = v
      · subst hvu
        rw [List.getElem_set_self]
        have hfp : h.m_pts[u] = fp := by
          rw [List.getElem?_eq_getElem hul] at hu
          exact Option.some_injective _ hu
        rw [hfp] at hmem
        exact Finset.mem_insert_of_mem hmem
      · rw [List.getElem_set_ne hvu]
        exact hmem
    · rw [List.getD_eq_getElem?_getD,
          List.getElem?_eq_none (by rw [List.length_set]; omega)]
      rw [List.getD_eq_getElem?_getD, List.getElem?_eq_none (by omega)] at hmem
      exact hmem

/-- The flattened `add_vertex_to_polygon` sequence of a list of vertex
indices (the six `add_triangle` calls flatten to this). -/
def add_vertices (st : TesserState) (winding : Int) (L : List Nat) :
    TesserState :=
  L.foldl (fun s v => add_vertex_to_polygon s winding v) st

lemma add_vertices_indices (st : TesserState) (winding : Int) (L : List Nat) :
    (add_vertices st winding L).m_indices = st.m_indices ++ L := by
  induction L generalizing st with
  | nil => simp [add_vertices]
  | cons v vs ih =>
    rw [add_vertices, List.foldl_cons]
    rw [show List.foldl (fun s v => add_vertex_to_polygon s winding v)
          (add_vertex_to_polygon st winding v) vs
        = add_vertices (add_vertex_to_polygon st winding v) winding vs from rfl]
    rw [ih]
    simp [add_vertex_to_polygon]

lemma add_vertices_points (st : TesserState) (winding : Int) (L : List Nat) :
    (add_vertices st winding L).m_points
      = L.foldl (fun h v => h.add_to_winding_set v winding) st.m_points := by
  induction L generalizing st with
  | nil => simp [add_vertices]
  | cons v vs ih =>
    rw [add_vertices, List.foldl_cons, List.foldl_cons]
    rw [show List.foldl (fun s v => add_vertex_to_polygon s winding v)
          (add_vertex_to_polygon st winding v) vs
        = add_vertices (add_vertex_to_polygon st winding v) winding vs from rfl]
    rw [ih]
    rfl

lemma foldl_add_len (L : List Nat) (h : PointHoard) (w : Int) :
    (L.foldl (fun hh u => hh.add_to_winding_set u w) h).m_pts.length
      = h.m_pts.length := by
  induction L generalizing h with
  | nil => rfl
  | cons u us ih =>
    rw [List.foldl_cons, ih, add_to_winding_set_length]

lemma foldl_add_mem_preserved (L : List Nat) (h : PointHoard) (w : Int)
    (v : Nat) (hmem : w ∈ ((h.m_pts.getD v default)).m_winding) :
    w ∈ (((L.foldl (fun hh u => hh.add_to_winding_set u w) h).m_pts.getD v
        default)).m_winding := by
  induction L generalizing h with
  | nil => exact hmem
  | cons u us ih =>
    rw [List.foldl_cons]
    exact ih _ (add_to_winding_set_mem_mono h u v w w hmem)

lemma foldl_add_mem (L : List Nat) (h : PointHoard) (w : Int) :
    ∀ v ∈ L, v < h.m_pts.length →
      w ∈ (((L.foldl (fun hh u => hh.add_to_winding_set u w) h).m_pts.getD v
          default)).m_winding := by
  induction L generalizing h with
  | nil => simp
  | cons u us ih =>
    intro v hv hvl
    rw [List.foldl_cons]
    rcases List.mem_cons.mp hv with rfl | hv2
    · exact foldl_add_mem_preserved us _ w v
        (add_to_winding_set_mem_self h v w hvl)
    · exact ih _ v hv2 (by rw [add_to_winding_set_length]; exact hvl)

set_option maxHeartbeats 400000 in
/-- Claim C5: every accepted triangle `(a, b, c)` is emitted as exactly
the six sub-triangles `(a, m_ab, g), (a, g, m_ac), (g, b, m_bc),
(m_ab, b, g), (m_ac, g, c), (g, m_bc, c)` in that order, where the edge
midpoints and centroid are fetched (deduplicated) from the `PointHoard`
in source order; exactly 18 vertex indices are recorded, and the current
polygon winding number is inserted into the winding set of every
involved vertex ID. -/
theorem accepted_triangle_emission (st : TesserState) (winding : Int)
    (t0 t1 t2 : Nat)
    (hacc : triangle_accepted st t0 t1 t2 = true)
    (hwf : hoard_wf st.m_points)
    (ht0 : t0 < st.m_points.m_pts.length)
    (ht1 : t1 < st.m_points.m_pts.length)
    (ht2 : t2 < st.m_points.m_pts.length) :
    (process_triangle st winding t0 t1 t2).m_indices
      = st.m_indices
        ++ emission_indices t0 t1 t2
            (fetch_midpoints st t0 t1 t2).1.1
            (fetch_midpoints st t0 t1 t2).1.2.1
            (fetch_midpoints st t0 t1 t2).1.2.2.1
            (fetch_midpoints st t0 t1 t2).1.2.2.2 ∧
    (emission_indices t0 t1 t2
        (fetch_midpoints st t0 t1 t2).1.1
        (fetch_midpoints st t0 t1 t2).1.2.1
        (fetch_midpoints st t0 t1 t2).1.2.2.1
        (fetch_midpoints st t0 t1 t2).1.2.2.2).length = 18 ∧
    (∀ v ∈ emission_indices t0 t1 t2
        (fetch_midpoints st t0 t1 t2).1.1
        (fetch_midpoints st t0 t1 t2).1.2.1
        (fetch_midpoints st t0 t1 t2).1.2.2.1
        (fetch_midpoints st t0 t1 t2).1.2.2.2,
      winding ∈ (((process_triangle st winding t0 t1 t2).m_points.m_pts.getD v
          default)).m_winding) := by
  have hproc : process_triangle st winding t0 t1 t2
      = add_vertices
          { m_points := (fetch_midpoints st t0 t1 t2).2
          , m_indices := st.m_indices } winding
          (emission_indices t0 t1 t2
            (fetch_midpoints st t0 t1 t2).1.1
            (fetch_midpoints st t0 t1 t2).1.2.1
            (fetch_midpoints st t0 t1 t2).1.2.2.1
            (fetch_midpoints st t0 t1 t2).1.2.2.2) := by
    unfold process_triangle
    rw [if_pos hacc]
    dsimp only
    simp only [add_vertices, emission_indices, List.foldl_cons,
      List.foldl_nil, add_triangle]
  obtain ⟨hb0, hb1, hb2, hb3, hb4⟩ := fetch_midpoints_bounds st t0 t1 t2 hwf
  generalize hFM : fetch_midpoints st t0 t1 t2 = FM
    at hproc hb0 hb1 hb2 hb3 hb4 ⊢
  refine ⟨?_, rfl, ?_⟩
  · rw [hproc, add_vertices_indices]
  · rw [hproc, add_vertices_points]
    dsimp only
    intro v hv
    have hvl : v < FM.2.m_pts.length := by
      simp only [emission_indices, List.mem_cons, List.not_mem_nil,
        or_false] at hv
      omega
    generalize emission_indices t0 t1 t2 FM.1.1 FM.1.2.1 FM.1.2.2.1
        FM.1.2.2.2 = E at hv ⊢
    exact foldl_add_mem E FM.2 winding v hv hvl

/-- The concrete state for the claim C5 witness: the triangle over
vertices `(0,0)`, `(4,0)`, `(0,4)` with an empty deduplication map. -/
def sample_state : TesserState :=
  { m_points :=
      { m_converter := CoordinateConverter.ofBounds (0, 0) (4, 4)
      , m_map := []
      , m_pts := [ { m_pt := (0, 0), m_winding := ∅ }
                 , { m_pt := (4, 0), m_winding := ∅ }
                 , { m_pt := (0, 4), m_winding := ∅ } ] }
  , m_indices := [] }

/-- Witness for claim C5 at `sample_state`, winding 7. -/
theorem accepted_triangle_emission_witness :
    (process_triangle sample_state 7 0 1 2).m_indices
      = sample_state.m_indices
        ++ emission_indices 0 1 2
            (fetch_midpoints sample_state 0 1 2).1.1
            (fetch_midpoints sample_state 0 1 2).1.2.1
            (fetch_midpoints sample_state 0 1 2).1.2.2.1
            (fetch_midpoints sample_state 0 1 2).1.2.2.2 ∧
    (emission_indices 0 1 2
        (fetch_midpoints sample_state 0 1 2).1.1
        (fetch_midpoints sample_state 0 1 2).1.2.1
        (fetch_midpoints sample_state 0 1 2).1.2.2.1
        (fetch_midpoints sample_state 0 1 2).1.2.2.2).length = 18 ∧
    (∀ v ∈ emission_indices 0 1 2
        (fetch_midpoints sample_state 0 1 2).1.1
        (fetch_midpoints sample_state 0 1 2).1.2.1
        (fetch_midpoints sample_state 0 1 2).1.2.2.1
        (fetch_midpoints sample_state 0 1 2).1.2.2.2,
      7 ∈ (((process_triangle sample_state 7 0 1 2).m_points.m_pts.getD v
          default)).m_winding) :=
  accepted_triangle_emission sample_state 7 0 1 2
    (by
      unfold sample_state triangle_accepted
        temp_verts_non_degenerate_triangle signed_area_cross
        FASTUIDRAW_GLU_NULL_CLIENT_ID
      norm_num [List.getD, Prod.ext_iff])
    (by intro pr hpr; simp [sample_state] at hpr)
    (by simp [sample_state])
    (by simp [sample_state])
    (by simp [sample_state])

/-! ### Subset selection and budget handling
(filled_path.cpp lines 2532-2571, 2631-2661) -/

/-- The per-leaf sizes computed by
`SubsetPrivate::make_ready_from_sub_path`:
`m_num_attributes = filler.m_points.size()` and
`m_largest_index_block = max(max(|nonzero|, |zero|), max(|odd|, |even|))`
over the four standard slices of the packed index array. -/
def leaf_sizes (num_points : Nat) (hoard : List (Int × List Nat)) :
    Nat × Nat :=
  let r := fill_indices hoard
  let total := r.indices.length
  let m1 := max r.zero_start (total - r.zero_start)
  let m2 := max r.even_non_zero_start (total - r.even_non_zero_start)
  (num_points, max m1 m2)

/-- The subset tree as `select_subsets_all_unculled` sees it: each node
carries its ID, the memoized size fields and the `m_sizes_ready` flag; a
leaf additionally carries the data its bake would produce (vertex count
and winding-index hoard). -/
inductive SubsetPrivateT where
  | leaf (m_ID : Nat) (sizes_ready : Bool)
      (num_attributes largest_index_block : Nat)
      (num_points : Nat) (hoard : List (Int × List Nat))
  | node (m_ID : Nat) (sizes_ready : Bool)
      (num_attributes largest_index_block : Nat)
      (c0 c1 : SubsetPrivateT)
deriving DecidableEq

/-- The `m_num_attributes` field. -/
def SubsetPrivateT.num_attributes : SubsetPrivateT → Nat
  | .leaf _ _ na _ _ _ => na
  | .node _ _ na _ _ _ => na

/-- The `m_largest_index_block` field. -/
def SubsetPrivateT.largest_index_block : SubsetPrivateT → Nat
  | .leaf _ _ _ lib _ _ => lib
  | .node _ _ _ lib _ _ => lib

/-- `SubsetPrivate::select_subsets_all_unculled` (filled_path.cpp lines
2532-2571): a childless node not yet ready is baked first (sizes from
`leaf_sizes`); a node whose sizes fit both budgets emits its ID; an
interior node that does not fit recurses and memoizes its sizes as the
sums of its children's; a childless node that does not fit only hits
`assert(!"Childless FilledPath::Subset has too many attributes or
indices")` — nothing is written to `dst`.  Returns the emitted IDs and
the updated node. -/
def select_subsets_all_unculled (n : SubsetPrivateT)
    (max_attribute_cnt max_index_cnt : Nat) :
    List Nat × SubsetPrivateT :=
  match n with
  | .leaf id ready na lib np hoard =>
    let na2 := if ready then na else (leaf_sizes np hoard).1
    let lib2 := if ready then lib else (leaf_sizes np hoard).2
    let n2 := SubsetPrivateT.leaf id true na2 lib2 np hoard
    if na2 ≤ max_attribute_cnt ∧ lib2 ≤ max_index_cnt then ([id], n2)
    else ([], n2)
  | .node id ready na lib c0 c1 =>
    if ready ∧ na ≤ max_attribute_cnt ∧ lib ≤ max_index_cnt then
      ([id], SubsetPrivateT.node id ready na lib c0 c1)
    else
      let r0 := select_subsets_all_unculled c0 max_attribute_cnt max_index_cnt
      let r1 := select_subsets_all_unculled c1 max_attribute_cnt max_index_cnt
      let na2 := if ready then na
        else r0.2.num_attributes + r1.2.num_attributes
      let lib2 := if ready then lib
        else r0.2.largest_index_block + r1.2.largest_index_block
      (r0.1 ++ r1.1, SubsetPrivateT.node id true na2 lib2 r0.2 r1.2)

/-- Counterexample for claim C7 as stated: a childless (leaf) subset that
survives culling but whose largest index block (3) exceeds
`max_index_cnt = 2` emits nothing — its ID 7 is silently dropped (the
only diagnostic is a debug-build `assert`, which does not emit). -/
theorem select_leaf_over_budget_counterexample :
    (select_subsets_all_unculled
      (SubsetPrivateT.leaf 7 false 0 0 3 [(1, [10, 11, 12])]) 10 2).1
      = [] ∧
    7 ∉ (select_subsets_all_unculled
      (SubsetPrivateT.leaf 7 false 0 0 3 [(1, [10, 11, 12])]) 10 2).1 := by
  have h1 : (select_subsets_all_unculled
      (SubsetPrivateT.leaf 7 false 0 0 3 [(1, [10, 11, 12])]) 10 2).1
      = [] := rfl
  refine ⟨h1, ?_⟩
  rw [h1]
  exact List.not_mem_nil 7

/-- Claim C7 (amended): for every childless (leaf) subset node that
survives clip culling but whose baked attribute count exceeds
`max_attribute_cnt` or whose largest index block exceeds `max_index_cnt`,
`select_subsets_all_unculled` emits nothing — the node's ID is dropped
from the output; the only diagnostic is a debug-build assertion. -/
theorem select_leaf_over_budget_drops (id : Nat) (na lib np : Nat)
    (hoard : List (Int × List Nat)) (max_attribute_cnt max_index_cnt : Nat)
    (hover : max_attribute_cnt < (leaf_sizes np hoard).1
      ∨ max_index_cnt < (leaf_sizes np hoard).2) :
    (select_subsets_all_unculled
        (SubsetPrivateT.leaf id false na lib np hoard)
        max_attribute_cnt max_index_cnt).1 = [] := by
  unfold select_subsets_all_unculled
  dsimp only
  rw [if_neg]
  rcases hover with h | h <;> simp <;> omega

/-- Witness for the amended claim C7 at a concrete over-budget leaf. -/
theorem select_leaf_over_budget_drops_witness :
    (select_subsets_all_unculled
        (SubsetPrivateT.leaf 3 false 0 0 100 [(2, [1, 2, 3, 4, 5, 6])])
        99 4).1 = [] :=
  select_leaf_over_budget_drops 3 0 0 100 [(2, [1, 2, 3, 4, 5, 6])] 99 4
    (by decide)

/-! ### make_ready memoization (filled_path.cpp lines 2573-2695) -/

/-- The bake inputs a leaf still holds before `make_ready`: the
winding-index hoard produced by the two tesser passes and the per-vertex
winding sets of the builder's `FillPoint` table. -/
structure LeafData where
  hoard : List (Int × List Nat)
  point_windings : List (List Int)
deriving DecidableEq

/-- The data a baked subset holds: the packed painter index data, the
sorted winding-number list, and the per-vertex winding sets. -/
structure BakedData where
  painter_data : FillIndicesResult
  winding_numbers : List Int
  windings_per_pt : List WindingSet
deriving DecidableEq

instance instInhabitedBakedData : Inhabited BakedData :=
  ⟨{ painter_data :=
      { indices := [], even_non_zero_start := 0, zero_start := 0 }
   , winding_numbers := []
   , windings_per_pt := [] }⟩

/-- `SubsetPrivate::make_ready_from_sub_path`: bake the leaf data into
painter data (via `builder::fill_indices`), the winding-number list (the
hoard keys with non-empty index lists), and the per-vertex winding
sets. -/
def bake_from_sub_path (sp : LeafData) : BakedData :=
  { painter_data := fill_indices sp.hoard
  , winding_numbers := (sp.hoard.filter (fun p => !p.2.isEmpty)).map Prod.fst
  , windings_per_pt := fill_winding_data sp.point_windings }

/-- `SubsetPrivate::make_ready_from_children` merging (AttributeDataMerger
plus the winding-set union): concatenate painter data with the second
child after the first, union the winding-number lists (sorted), and
concatenate the per-vertex winding sets. -/
def merge_baked (a b : BakedData) : BakedData :=
  { painter_data :=
      { indices := a.painter_data.indices ++ b.painter_data.indices
      , even_non_zero_start := a.painter_data.even_non_zero_start
          + b.painter_data.even_non_zero_start
      , zero_start := a.painter_data.zero_start + b.painter_data.zero_start }
  , winding_numbers :=
      ((a.winding_numbers ++ b.winding_numbers).mergeSort (· ≤ ·)).dedup
  , windings_per_pt := a.windings_per_pt ++ b.windings_per_pt }

/-- A subset node as `make_ready` sees it: `m_painter_data` (null until
baked), `m_sub_path` (null once consumed), and the two children (both
null iff leaf). -/
inductive SubsetNodeR where
  | mk (painter_data : Option BakedData) (sub_path : Option LeafData)
      (children : Option (SubsetNodeR × SubsetNodeR))

/-- The `m_painter_data` field. -/
def SubsetNodeR.painter_data : SubsetNodeR → Option BakedData
  | .mk pd _ _ => pd

/-- The `m_winding_numbers` / `m_windings_per_pt` of the bake, when
ready. -/
def SubsetNodeR.baked (t : SubsetNodeR) : BakedData :=
  t.painter_data.getD default

/-- `SubsetPrivate::make_ready` (filled_path.cpp lines 2573-2588): if
`m_painter_data` is already set, do nothing; else bake from the sub-path
when one is held, else recursively make the children ready and merge
them. -/
def make_ready : SubsetNodeR → SubsetNodeR
  | .mk (some pd) sp ch => .mk (some pd) sp ch
  | .mk none (some sp) ch => .mk (some (bake_from_sub_path sp)) none ch
  | .mk none none (some (c0, c1)) =>
    let c0r := make_ready c0
    let c1r := make_ready c1
    .mk (some (merge_baked c0r.baked c1r.baked)) none (some (c0r, c1r))
  | .mk none none none => .mk none none none

/-- Claim C8: `make_ready` is idempotent — a second call after the first
performs no rebuilding and leaves the node (painter data, winding-number
list, per-vertex winding sets, and recursively the children) exactly as
the first call produced it. -/
theorem make_ready_idempotent (t : SubsetNodeR) :
    make_ready (make_ready t) = make_ready t ∧
    (make_ready (make_ready t)).baked.painter_data
      = (make_ready t).baked.painter_data ∧
    (make_ready (make_ready t)).baked.winding_numbers
      = (make_ready t).baked.winding_numbers ∧
    (make_ready (make_ready t)).baked.windings_per_pt
      = (make_ready t).baked.windings_per_pt := by
  have h : make_ready (make_ready t) = make_ready t := by
    rcases t with ⟨pd, sp, ch⟩
    cases pd with
    | some b => rfl
    | none =>
      cases sp with
      | some s => rfl
      | none =>
        cases ch with
        | some c => rfl
        | none => rfl
  exact ⟨h, by rw [h], by rw [h], by rw [h]⟩

/-! ### SubPath splitting and the subset-tree construction
(filled_path.cpp lines 75-89, 1126-1282, 1346-1398, 2413-2442, 2699-2705) -/

/-- `SubsetConstants::recursion_depth`. -/
def recursion_depth : Nat := 12

/-- `SubsetConstants::points_per_subset`. -/
def points_per_subset : Nat := 64

/-- `SubsetConstants::size_max_ratio`. -/
def size_max_ratio : ℚ := 4

/-- Coordinate access on a 2D point. -/
def getc (p : ℚ × ℚ) (i : Nat) : ℚ := if i = 0 then p.1 else p.2

/-- Coordinate update on a 2D point. -/
def setc (p : ℚ × ℚ) (i : Nat) (v : ℚ) : ℚ × ℚ :=
  if i = 0 then (v, p.2) else (p.1, v)

/-- `SubPath`: bounding box (min point, max point), contours, and the
accumulated winding start; `m_total_points` is the sum of the contour
sizes (the constructor invariant). -/
structure SubPathM where
  m_bounds : (ℚ × ℚ) × (ℚ × ℚ)
  m_contours : List (List SubContourPoint)
  m_winding_start : Int
deriving DecidableEq

/-- `SubPath::total_points`. -/
def SubPathM.total_points (P : SubPathM) : Nat :=
  (P.m_contours.map List.length).sum

/-- The inner counting loop of `SubPath::choose_splitting_coordinate` for
one contour and one axis: returns `(number_points_before,
number_points_after)` contributions. -/
def contour_counts (c : List SubContourPoint) (i : Nat) (m : ℚ) :
    Nat × Nat :=
  match c.getLast? with
  | none => (0, 0)
  | some lastp =>
    (c.foldl
      (fun acc pt =>
        let prev := acc.2
        let prev_b := prev.coord i < m
        let b := pt.coord i < m
        let bef := acc.1.1 + (if b ∨ pt.coord i = m then 1 else 0)
        let aft := acc.1.2 + (if ¬b ∨ pt.coord i = m then 1 else 0)
        let bef := bef + (if prev.coord i ≠ m ∧ prev_b ≠ b then 1 else 0)
        let aft := aft + (if prev.coord i ≠ m ∧ prev_b ≠ b then 1 else 0)
        ((bef, aft), pt))
      ((0, 0), lastp)).1

/-- `SubPath::choose_splitting_coordinate` (filled_path.cpp lines
1126-1204): force the long axis when the aspect ratio exceeds
`size_max_ratio`, else pick the axis minimizing
`number_points_before + number_points_after`. -/
def choose_splitting_coordinate (P : SubPathM) (mid_pt : ℚ × ℚ) : Nat :=
  let wh := (P.m_bounds.2.1 - P.m_bounds.1.1, P.m_bounds.2.2 - P.m_bounds.1.2)
  if wh.1 ≥ size_max_ratio * wh.2 then 0
  else if wh.2 ≥ size_max_ratio * wh.1 then 1
  else
    let nx := (P.m_contours.map
      (fun c => (contour_counts c 0 (getc mid_pt 0)).1
        + (contour_counts c 0 (getc mid_pt 0)).2)).sum
    let ny := (P.m_contours.map
      (fun c => (contour_counts c 1 (getc mid_pt 1)).1
        + (contour_counts c 1 (getc mid_pt 1)).2)).sum
    if nx < ny then 0 else 1

/-- `SubPath::compute_spit_point` (sic): intersection of the edge
`(a, b)` with the cut line, interpolating only the unsplit coordinate. -/
def compute_spit_point (a b : ℚ × ℚ) (splitting_coordinate : Nat)
    (splitting_value : ℚ) : ℚ × ℚ :=
  let t := (splitting_value - getc a splitting_coordinate)
    / (getc b splitting_coordinate - getc a splitting_coordinate)
  let aa := getc a (1 - splitting_coordinate)
  let bb := getc b (1 - splitting_coordinate)
  setc (setc a splitting_coordinate splitting_value)
    (1 - splitting_coordinate) ((1 - t) * aa + t * bb)

/-- The `SubContourPoint` split constructor (filled_path.cpp lines
1033-1070): the unsplit-axis boundary tag is kept when the endpoints
agree and cleared otherwise; the split-axis tag is the given one. -/
def SubContourPoint.split_ctor (a b : SubContourPoint) (pt : ℚ × ℚ)
    (split_coordinate : Nat) (tp : OnBoundary) : SubContourPoint :=
  let unsplit := 1 - split_coordinate
  let ub := if a.boundary_type unsplit = b.boundary_type unsplit
    then a.boundary_type unsplit else OnBoundary.not_on_boundary
  if split_coordinate = 0 then
    { ptx := pt.1, pty := pt.2, m_start_tessellated_edge := true
    , btx := tp, bty := ub }
  else
    { ptx := pt.1, pty := pt.2, m_start_tessellated_edge := true
    , btx := ub, bty := tp }

/-- The edge loop of `SubPath::split_contour` (filled_path.cpp lines
1227-1278), before the post-processing: emit each point to the `≤` side
and/or the `≥` side, inserting tagged split points where the edge
crosses the cut. -/
def split_contour_raw (src : List SubContourPoint)
    (splitting_coordinate : Nat) (splitting_value : ℚ) :
    List SubContourPoint × List SubContourPoint :=
  match src.getLast? with
  | none => ([], [])
  | some first_prev =>
    let r := src.foldl
      (fun acc pt =>
        let prev_pt := acc.2.2
        let prev_b0 := prev_pt.coord splitting_coordinate ≤ splitting_value
        let b0 := pt.coord splitting_coordinate ≤ splitting_value
        let prev_b1 := prev_pt.coord splitting_coordinate ≥ splitting_value
        let b1 := pt.coord splitting_coordinate ≥ splitting_value
        let split_pt := compute_spit_point (prev_pt.ptx, prev_pt.pty)
          (pt.ptx, pt.pty) splitting_coordinate splitting_value
        let c0 := acc.1
          ++ (if prev_b0 ≠ b0 then
                [SubContourPoint.split_ctor prev_pt pt split_pt
                  splitting_coordinate OnBoundary.on_max_boundary]
              else [])
          ++ (if b0 then [pt] else [])
        let c1 := acc.2.1
          ++ (if prev_b1 ≠ b1 then
                [SubContourPoint.split_ctor prev_pt pt split_pt
                  splitting_coordinate OnBoundary.on_min_boundary]
              else [])
          ++ (if b1 then [pt] else [])
        (c0, c1, pt))
      ([], [], first_prev)
    (r.1, r.2.1)

/-- `SubPath::split_contour` with the trailing
`post_process_sub_contour` calls: returns the two (possibly collapsed)
child contours and the winding-start contributions. -/
def split_contour (src : List SubContourPoint) (splitting_coordinate : Nat)
    (splitting_value : ℚ) :
    (List SubContourPoint × Int) × (List SubContourPoint × Int) :=
  let r := split_contour_raw src splitting_coordinate splitting_value
  let r0 := post_process_sub_contour r.1
  let r1 := post_process_sub_contour r.2
  ((r0.2, r0.1), (r1.2, r1.1))

/-- `SubPath::split` (filled_path.cpp lines 1346-1398): choose the cut,
split every contour, drop contours that became empty, and build the two
children with their winding starts. -/
def SubPathM.split (P : SubPathM) : SubPathM × SubPathM :=
  let mid_pt : ℚ × ℚ := ((P.m_bounds.1.1 + P.m_bounds.2.1) / 2,
                         (P.m_bounds.1.2 + P.m_bounds.2.2) / 2)
  let sc := choose_splitting_coordinate P mid_pt
  let sv := getc mid_pt sc
  let B0_max := setc P.m_bounds.2 sc sv
  let B1_min := setc P.m_bounds.1 sc sv
  let r := P.m_contours.foldl
    (fun acc c =>
      let s := split_contour c sc sv
      (acc.1 ++ (if s.1.1.isEmpty then [] else [s.1.1]),
       acc.2.1 ++ (if s.2.1.isEmpty then [] else [s.2.1]),
       acc.2.2.1 + s.1.2,
       acc.2.2.2 + s.2.2))
    ([], [], 0, 0)
  ({ m_bounds := (P.m_bounds.1, B0_max)
   , m_contours := r.1
   , m_winding_start := r.2.2.1 + P.m_winding_start },
   { m_bounds := (B1_min, P.m_bounds.2)
   , m_contours := r.2.1
   , m_winding_start := r.2.2.2 + P.m_winding_start })

/-- The subset tree as built by the `SubsetPrivate` constructor; each
node remembers the `SubPath` it was built from and the remaining
recursion budget (`max_recursion`; the root starts at
`recursion_depth = 12`). -/
inductive SubsetTreeB where
  | leafB (Q : SubPathM) (max_recursion : Nat)
  | nodeB (Q : SubPathM) (max_recursion : Nat) (c0 c1 : SubsetTreeB)
deriving DecidableEq

/-- The recursive `SubsetPrivate::SubsetPrivate` constructor
(filled_path.cpp lines 2413-2442): split while the recursion budget is
positive and the node holds more than `points_per_subset` points, and
keep the split only when at least one child got strictly smaller.  The
recursion terminates: the budget strictly decreases. -/
def buildSubset (Q : SubPathM) (max_recursion : Nat) : SubsetTreeB :=
  if h : 0 < max_recursion ∧ points_per_subset < Q.total_points then
    if (Q.split.1.total_points < Q.total_points
        ∨ Q.split.2.total_points < Q.total_points) then
      SubsetTreeB.nodeB Q max_recursion
        (buildSubset Q.split.1 (max_recursion - 1))
        (buildSubset Q.split.2 (max_recursion - 1))
    else SubsetTreeB.leafB Q max_recursion
  else SubsetTreeB.leafB Q max_recursion
termination_by max_recursion
decreasing_by
  · omega
  · omega

/-- The root of the tree, as `FilledPathPrivate` builds it. -/
def build_root (Q : SubPathM) : SubsetTreeB := buildSubset Q recursion_depth

/-- The leaves of a built subset tree, with the recursion budget each was
created at. -/
def SubsetTreeB.leaves : SubsetTreeB → List (SubPathM × Nat)
  | .leafB Q d => [(Q, d)]
  | .nodeB _ _ c0 c1 => c0.leaves ++ c1.leaves

/-- The interior (split) nodes of a built subset tree. -/
def SubsetTreeB.internal : SubsetTreeB → List (SubPathM × Nat)
  | .leafB _ _ => []
  | .nodeB Q d c0 c1 => (Q, d) :: (c0.internal ++ c1.internal)

/-- Claim C9: the recursive subset-tree construction terminates
(`buildSubset` is total, the recursion budget strictly decreasing), a
node is split exactly when it holds more than 64 points, the depth bound
has not been exhausted, and at least one child is strictly smaller; and
every leaf either holds ≤ 64 points, or was created with the budget
exhausted (depth 12 from the root), or both its would-be children have
no fewer points than it. -/
theorem subset_tree_construction_spec (Q : SubPathM) (fuel : Nat) :
    (∀ L ∈ (buildSubset Q fuel).leaves,
      L.1.total_points ≤ points_per_subset ∨ L.2 = 0 ∨
      (points_per_subset < L.1.total_points ∧
        ¬ (L.1.split.1.total_points < L.1.total_points
            ∨ L.1.split.2.total_points < L.1.total_points))) ∧
    (∀ N ∈ (buildSubset Q fuel).internal,
      0 < N.2 ∧ points_per_subset < N.1.total_points ∧
      (N.1.split.1.total_points < N.1.total_points
        ∨ N.1.split.2.total_points < N.1.total_points)) := by
  induction fuel using Nat.strong_induction_on generalizing Q with
  | _ fuel ih =>
    rw [buildSubset]
    by_cases h1 : 0 < fuel ∧ points_per_subset < Q.total_points
    · rw [dif_pos h1]
      by_cases h2 : Q.split.1.total_points < Q.total_points
          ∨ Q.split.2.total_points < Q.total_points
      · rw [if_pos h2]
        have ih1 := ih (fuel - 1) (by omega) Q.split.1
        have ih2 := ih (fuel - 1) (by omega) Q.split.2
        constructor
        · intro L hL
          rw [SubsetTreeB.leaves] at hL
          rcases List.mem_append.mp hL with hL1 | hL2
          · exact ih1.1 L hL1
          · exact ih2.1 L hL2
        · intro N hN
          rw [SubsetTreeB.internal] at hN
          rcases List.mem_cons.mp hN with rfl | hN2
          · exact ⟨h1.1, h1.2, h2⟩
          · rcases List.mem_append.mp hN2 with hN3 | hN3
            · exact ih1.2 N hN3
            · exact ih2.2 N hN3
      · rw [if_neg h2]
        constructor
        · intro L hL
          rw [SubsetTreeB.leaves] at hL
          rcases List.mem_singleton.mp hL with rfl
          exact Or.inr (Or.inr ⟨h1.2, h2⟩)
        · intro N hN
          rw [SubsetTreeB.internal] at hN
          exact absurd hN (List.not_mem_nil N)
    · rw [dif_neg h1]
      constructor
      · intro L hL
        rw [SubsetTreeB.leaves] at hL
        rcases List.mem_singleton.mp hL with rfl
        dsimp only
        omega
      · intro N hN
        rw [SubsetTreeB.internal] at hN
        exact absurd hN (List.not_mem_nil N)

/-- The concrete `SubPath` for the claim C9 witness: one triangular
contour of three interior points. -/
def sample_sub_path : SubPathM :=
  { m_bounds := ((0, 0), (1, 1))
  , m_contours := [[
      { ptx := 0, pty := 0, m_start_tessellated_edge := true
      , btx := OnBoundary.not_on_boundary, bty := OnBoundary.not_on_boundary },
      { ptx := 1, pty := 0, m_start_tessellated_edge := true
      , btx := OnBoundary.not_on_boundary, bty := OnBoundary.not_on_boundary },
      { ptx := 0, pty := 1, m_start_tessellated_edge := true
      , btx := OnBoundary.not_on_boundary, bty := OnBoundary.not_on_boundary }]]
  , m_winding_start := 0 }

/-- Witness for claim C9: the tree built from `sample_sub_path` at the
root budget `recursion_depth = 12` is a single leaf holding ≤ 64
points. -/
theorem subset_tree_construction_spec_witness :
    sample_sub_path.total_points ≤ points_per_subset ∨ (12 : Nat) = 0 ∨
    (points_per_subset < sample_sub_path.total_points ∧
      ¬ (sample_sub_path.split.1.total_points < sample_sub_path.total_points
          ∨ sample_sub_path.split.2.total_points
              < sample_sub_path.total_points)) :=
  (subset_tree_construction_spec sample_sub_path 12).1
    (sample_sub_path, 12)
    (by
      have hB : buildSubset sample_sub_path 12
          = SubsetTreeB.leafB sample_sub_path 12 := by
        rw [buildSubset]
        rw [dif_neg]
        intro h
        exact absurd h.2 (by decide)
      rw [hB, SubsetTreeB.leaves]
      exact List.mem_singleton.mpr rfl)

end FilledPathSpec
